import Mathlib

/-!
Shallow embedding of the NES-to-PS/2 adapter firmware (GamepadPS2.ino) and
verification of its specification claims.

The firmware is a single-threaded polling loop.  We model:
  * the bounded ring buffer of outgoing PS/2 bytes (`Queue`, `enqueue`,
    `enqueuePause`, `processQueue`),
  * the PS/2 make/break encoders (`sendMake`, `sendBreak`, `releaseAll`),
  * the EEPROM settings byte (`saveConfig`, `loadConfig`),
  * the four layout tables (`layouts`, `extFlags`),
  * one iteration of the main loop after input sampling (`loopStep`),
    with the normal-operation edge-detection step factored out (`normalOp`).

Hardware I/O (pin reads/writes, microsecond delays, the blocking wire write)
is outside the model; `loopStep` takes the freshly sampled NES mask as a
parameter and `processQueue` takes the current time as a parameter.
-/

namespace GamepadPS2

-- ============================================================
-- Constants (from the #define block)
-- ============================================================

def NO_KEY : Nat := 0x00
def PAUSE_CODE : Nat := 0xFE
def LAYOUT_COUNT : Nat := 4
def EVENT_INTERVAL_US : Nat := 2500
def QUEUE_SIZE : Nat := 64
def BUTTON_COUNT : Nat := 8

def PS2_A : Nat := 0x1C
def PS2_B : Nat := 0x32
def PS2_Q : Nat := 0x15
def PS2_M : Nat := 0x3A
def PS2_N : Nat := 0x31
def PS2_O : Nat := 0x44
def PS2_P : Nat := 0x4D
def PS2_0 : Nat := 0x45
def PS2_1 : Nat := 0x16
def PS2_2 : Nat := 0x1E
def PS2_3 : Nat := 0x26
def PS2_4 : Nat := 0x25
def PS2_5 : Nat := 0x2E
def PS2_6 : Nat := 0x36
def PS2_7 : Nat := 0x3D
def PS2_8 : Nat := 0x3E
def PS2_9 : Nat := 0x46
def PS2_ESC : Nat := 0x76
def PS2_F1 : Nat := 0x05
def PS2_ENTER : Nat := 0x5A

def PS2_EXT_LEFT : Nat := 0x6B
def PS2_EXT_RIGHT : Nat := 0x74
def PS2_EXT_UP : Nat := 0x75
def PS2_EXT_DOWN : Nat := 0x72

-- ============================================================
-- Output queue (ring buffer `queue[QUEUE_SIZE]` with qHead/qTail)
-- ============================================================

/-- The ring buffer state: the byte array (modelled as a map from index to
byte) and the head/tail indices.  `qHead` is where the producer writes next,
`qTail` is where the consumer reads next. -/
structure Queue where
  buf : Nat → Nat
  qHead : Nat
  qTail : Nat

/-- The queue at reset: both indices 0, array contents zero-initialised. -/
def emptyQueue : Queue := ⟨fun _ => 0, 0, 0⟩

/-- `enqueue(uint8_t b)`: advance the head unless that would collide with the
tail; on collision the byte is silently dropped. -/
def enqueue (q : Queue) (b : Nat) : Queue :=
  let next := (q.qHead + 1) % QUEUE_SIZE
  if next ≠ q.qTail then
    { q with buf := fun j => if j = q.qHead then b else q.buf j, qHead := next }
  else q

/-- `PAUSE_SEQ`: the fixed 8-byte PS/2 pause sequence. -/
def PAUSE_SEQ : List Nat := [0xE1, 0x14, 0x77, 0xE1, 0xF0, 0x14, 0xF0, 0x77]

/-- One unchecked write of the `enqueuePause` inner loop:
`queue[qHead] = b; qHead = (qHead + 1) % QUEUE_SIZE;`. -/
def pushRaw (q : Queue) (b : Nat) : Queue :=
  { q with buf := fun j => if j = q.qHead then b else q.buf j,
           qHead := (q.qHead + 1) % QUEUE_SIZE }

/-- The free-slot computation at the top of `enqueuePause`. -/
def freeSlots (q : Queue) : Nat :=
  if q.qTail > q.qHead then q.qTail - q.qHead - 1
  else QUEUE_SIZE - (q.qHead - q.qTail) - 1

/-- `enqueuePause()`: write the whole 8-byte pause sequence if at least
8 slots are free, otherwise do nothing. -/
def enqueuePause (q : Queue) : Queue :=
  if freeSlots q ≥ 8 then PAUSE_SEQ.foldl pushRaw q else q

/-- `processQueue()`: if the queue is non-empty and the inter-byte interval
has elapsed, transmit one byte (the wire write itself is outside the model)
and advance the tail.  Returns the new queue and the new `lastSendTime`. -/
def processQueue (q : Queue) (now lastSendTime : Nat) : Queue × Nat :=
  if q.qHead = q.qTail then (q, lastSendTime)
  else if now - lastSendTime < EVENT_INTERVAL_US then (q, lastSendTime)
  else ({ q with qTail := (q.qTail + 1) % QUEUE_SIZE }, now)

-- ============================================================
-- Queue observation functions (for stating the claims)
-- ============================================================

/-- Number of bytes currently resident in the ring buffer. -/
def residentCount (q : Queue) : Nat :=
  (q.qHead + QUEUE_SIZE - q.qTail) % QUEUE_SIZE

/-- The resident bytes, in transmission order (from tail to head). -/
def residentBytes (q : Queue) : List Nat :=
  (List.range (residentCount q)).map (fun i => q.buf ((q.qTail + i) % QUEUE_SIZE))

/-- Well-formedness of the indices: both in `[0, QUEUE_SIZE)`.  This is
maintained automatically because every index update is taken mod
`QUEUE_SIZE`. -/
def QueueInv (q : Queue) : Prop := q.qHead < QUEUE_SIZE ∧ q.qTail < QUEUE_SIZE

instance (q : Queue) : Decidable (QueueInv q) := by
  unfold QueueInv; infer_instance

-- ============================================================
-- PS/2 send functions
-- ============================================================

/-- `sendMake(code, ext)`: nothing for `NO_KEY`, the atomic pause sequence
for `PAUSE_CODE`, otherwise an optional `0xE0` extended marker followed by
the scan code. -/
def sendMake (q : Queue) (code : Nat) (ext : Bool) : Queue :=
  if code = NO_KEY then q
  else if code = PAUSE_CODE then enqueuePause q
  else enqueue (if ext then enqueue q 0xE0 else q) code

/-- `sendBreak(code, ext)`: nothing for `NO_KEY` and for `PAUSE_CODE`
(pause has no break code), otherwise an optional `0xE0` marker, `0xF0`, and
the scan code. -/
def sendBreak (q : Queue) (code : Nat) (ext : Bool) : Queue :=
  if code = NO_KEY then q
  else if code = PAUSE_CODE then q
  else enqueue (enqueue (if ext then enqueue q 0xE0 else q) 0xF0) code

/-- Byte sequence a `sendMake` call appends when the queue has room
(specification-side description of the encoder). -/
def makeBytes (code : Nat) (ext : Bool) : List Nat :=
  if code = NO_KEY then []
  else if code = PAUSE_CODE then PAUSE_SEQ
  else (if ext then [0xE0] else []) ++ [code]

/-- Byte sequence a `sendBreak` call appends when the queue has room
(specification-side description of the encoder). -/
def breakBytes (code : Nat) (ext : Bool) : List Nat :=
  if code = NO_KEY then []
  else if code = PAUSE_CODE then []
  else (if ext then [0xE0] else []) ++ [0xF0, code]

-- ============================================================
-- Layout definitions
-- ============================================================

/-- Layout 0 — QAOPM + PAUSE on START + ESC on SELECT.
Button order: [0]A, [1]B, [2]Select, [3]Start, [4]Up, [5]Down, [6]Left, [7]Right. -/
def layout_QAOPM : List Nat :=
  [PS2_M, PS2_Q, PS2_ESC, PAUSE_CODE, PS2_Q, PS2_A, PS2_O, PS2_P]

def layout_QAOPM_ext : List Bool :=
  [false, false, false, false, false, false, false, false]

/-- Layout 1 — Left Sinclair (1-5) + PAUSE on START + ESC on SELECT. -/
def layout_LeftSinclair : List Nat :=
  [PS2_5, PS2_4, PS2_ESC, PAUSE_CODE, PS2_4, PS2_3, PS2_1, PS2_2]

def layout_LeftSinclair_ext : List Bool :=
  [false, false, false, false, false, false, false, false]

/-- Layout 2 — Right Sinclair (6-0) + PAUSE on START + ESC on SELECT. -/
def layout_RightSinclair : List Nat :=
  [PS2_0, PS2_9, PS2_ESC, PAUSE_CODE, PS2_9, PS2_8, PS2_6, PS2_7]

def layout_RightSinclair_ext : List Bool :=
  [false, false, false, false, false, false, false, false]

/-- Layout 3 — Emulator Control + F1 on SELECT; directionals are extended. -/
def layout_Emulator : List Nat :=
  [PS2_2, PS2_3, PS2_F1, PS2_ENTER, PS2_EXT_UP, PS2_EXT_DOWN, PS2_EXT_LEFT, PS2_EXT_RIGHT]

def layout_Emulator_ext : List Bool :=
  [false, false, false, false, true, true, true, true]

/-- The `layouts[]` pointer table, indexed by the layout number.  Indexing
outside 0..3 never happens at runtime (the settings invariant); the default
is the empty list. -/
def layouts : Nat → List Nat
  | 0 => layout_QAOPM
  | 1 => layout_LeftSinclair
  | 2 => layout_RightSinclair
  | 3 => layout_Emulator
  | _ => []

/-- The `extFlags[]` pointer table. -/
def extFlags : Nat → List Bool
  | 0 => layout_QAOPM_ext
  | 1 => layout_LeftSinclair_ext
  | 2 => layout_RightSinclair_ext
  | 3 => layout_Emulator_ext
  | _ => []

/-- NES bit mapping: 0:A, 1:B, 2:Select, 3:Start, 4:Up, 5:Down, 6:Left, 7:Right. -/
def nesBitIndex : List Nat := [0, 1, 2, 3, 4, 5, 6, 7]

-- ============================================================
-- releaseAll
-- ============================================================

/-- One iteration of the `releaseAll` loop: if button `i` is marked pressed,
send its break code and clear the flag. -/
def releaseStep (keys : List Nat) (ext : List Bool)
    (acc : Queue × List Bool) (i : Nat) : Queue × List Bool :=
  if acc.2.getD i false then
    (sendBreak acc.1 (keys.getD i 0) (ext.getD i false), acc.2.set i false)
  else acc

/-- `releaseAll(keys, ext)`: send a break for every currently-pressed button
and clear its state flag, in button order. -/
def releaseAll (keys : List Nat) (ext : List Bool) (q : Queue) (bs : List Bool) :
    Queue × List Bool :=
  (List.range BUTTON_COUNT).foldl (releaseStep keys ext) (q, bs)

/-- Specification-side description of the bytes `releaseAll` emits for the
index list `l`: the concatenation, in order, of the break encodings of the
buttons marked pressed. -/
def releaseBytesOn (keys : List Nat) (ext : List Bool) (bs : List Bool) :
    List Nat → List Nat
  | [] => []
  | i :: r =>
      (if bs.getD i false then breakBytes (keys.getD i 0) (ext.getD i false) else []) ++
      releaseBytesOn keys ext bs r

/-- The bytes `releaseAll` emits over the full button range. -/
def releaseBytes (keys : List Nat) (ext : List Bool) (bs : List Bool) : List Nat :=
  releaseBytesOn keys ext bs (List.range BUTTON_COUNT)

-- ============================================================
-- EEPROM configuration byte
-- ============================================================

/-- `saveConfig()`: pack the configuration into one byte,
bits [1:0] = layout, bit [2] = swapAB, and return the byte written to the
EEPROM cell. -/
def saveConfig (layout : Nat) (swapAB : Bool) : Nat :=
  layout ||| ((if swapAB then 1 else 0) <<< 2)

/-- The in-memory configuration decoded by `loadConfig`. -/
structure Config where
  layout : Nat
  swapAB : Bool
  deriving DecidableEq, Repr

/-- `loadConfig()`: decode the stored byte; bits [1:0] give the layout and
bit [2] the swap flag.  If the decoded layout were out of range, reset to
layout 2 / no swap and rewrite the EEPROM cell; the second component
reports the byte written by that recovery path (`none` = no write). -/
def loadConfig (configByte : Nat) : Config × Option Nat :=
  let loadedLayout := configByte &&& 0x03
  if loadedLayout < LAYOUT_COUNT then
    (⟨loadedLayout, (configByte >>> 2) &&& 1 = 1⟩, none)
  else
    (⟨2, false⟩, some (saveConfig 2 false))

-- ============================================================
-- Normal-operation edge detection (loop lines: Normal Operation)
-- ============================================================

/-- The per-button `pressed` computation of the normal-operation loop:
buttons 0/1 take the swap-adjusted A/B values, the rest test their NES bit
directly (active low). -/
def pressedFn (state : Nat) (swapAB : Bool) (i : Nat) : Bool :=
  let physA := state &&& 0x01 == 0
  let physB := state &&& 0x02 == 0
  let logicA := if swapAB then physB else physA
  let logicB := if swapAB then physA else physB
  if i = 0 then logicA
  else if i = 1 then logicB
  else state &&& (1 <<< nesBitIndex.getD i 0) == 0

/-- One iteration of the normal-operation loop: on a rising edge send the
make code and set the flag, on a falling edge send the break code and clear
it, otherwise do nothing. -/
def buttonStep (state : Nat) (swapAB : Bool) (keys : List Nat) (ext : List Bool)
    (acc : Queue × List Bool) (i : Nat) : Queue × List Bool :=
  if pressedFn state swapAB i && !(acc.2.getD i false) then
    (sendMake acc.1 (keys.getD i 0) (ext.getD i false), acc.2.set i true)
  else if !(pressedFn state swapAB i) && acc.2.getD i false then
    (sendBreak acc.1 (keys.getD i 0) (ext.getD i false), acc.2.set i false)
  else acc

/-- The whole normal-operation edge-detection step (step 5 of the per-cycle
algorithm). -/
def normalOp (q : Queue) (bs : List Bool) (state : Nat) (swapAB : Bool)
    (keys : List Nat) (ext : List Bool) : Queue × List Bool :=
  (List.range BUTTON_COUNT).foldl (buttonStep state swapAB keys ext) (q, bs)

-- ============================================================
-- Main loop (one iteration, after input sampling)
-- ============================================================

/-- Global state of the firmware between loop iterations.  `eeprom` is the
persistent settings byte (the external store, written by `saveConfig`). -/
structure Device where
  q : Queue
  buttonState : List Bool
  layout : Nat
  swapAB : Bool
  selectMode : Bool
  lastNesState : Nat
  eeprom : Nat

/-- The configuration-mode layout-select chain: Down, Left, Right, Up
(in that if/else order) choose layouts 0, 1, 2, 3; `none` when no
directional bit is low. -/
def layoutSelect (state : Nat) : Option Nat :=
  if state &&& (1 <<< 5) = 0 then some 0
  else if state &&& (1 <<< 6) = 0 then some 1
  else if state &&& (1 <<< 7) = 0 then some 2
  else if state &&& (1 <<< 4) = 0 then some 3
  else none

/-- The tail of a loop iteration that reaches normal operation: run edge
detection and record this cycle's mask. -/
def finishCycle (d : Device) (state : Nat) (keys : List Nat) (ext : List Bool) :
    Device :=
  let r := normalOp d.q d.buttonState state d.swapAB keys ext
  { d with q := r.1, buttonState := r.2, lastNesState := state }

/-- One iteration of `loop()` after `processQueue()` and `readNES()`:
`state` is the freshly sampled NES mask (active low).  `keys`/`ext` are
bound once at the top, so a mid-cycle layout change still releases keys
against the old tables, exactly as in the source. -/
def loopStep (d : Device) (state : Nat) : Device :=
  let keys := layouts d.layout
  let ext := extFlags d.layout
  let selectPressed := state &&& (1 <<< 2) == 0
  let d1 :=
    if selectPressed && !d.selectMode then
      let r := releaseAll keys ext d.q d.buttonState
      { d with selectMode := true, q := r.1, buttonState := r.2 }
    else d
  let d2 := if !selectPressed && d1.selectMode then { d1 with selectMode := false } else d1
  if d2.selectMode then
    let aPressed := (state &&& (1 <<< 0) == 0) && !(d2.lastNesState &&& (1 <<< 0) == 0)
    let bPressed := (state &&& (1 <<< 1) == 0) && !(d2.lastNesState &&& (1 <<< 1) == 0)
    if aPressed then
      let d3 := { d2 with swapAB := false }
      let d4 := { d3 with eeprom := saveConfig d3.layout d3.swapAB }
      finishCycle d4 state keys ext
    else if bPressed then
      let d3 := { d2 with swapAB := true }
      let d4 := { d3 with eeprom := saveConfig d3.layout d3.swapAB }
      finishCycle d4 state keys ext
    else
      match layoutSelect state with
      | some newLayout =>
          let r := releaseAll keys ext d2.q d2.buttonState
          let d3 := { d2 with q := r.1,
                              buttonState := List.replicate BUTTON_COUNT false,
                              layout := newLayout }
          let d4 := { d3 with eeprom := saveConfig d3.layout d3.swapAB }
          { d4 with lastNesState := state }
      | none => finishCycle d2 state keys ext
  else finishCycle d2 state keys ext

-- ============================================================
-- Specification-side table and concrete test fixtures
-- ============================================================

/-- Transcription of the specification's layout table (§4.2): the PS/2
scan-set-2 codes of the named keys, per profile, in button order
A, B, Select, Start, Up, Down, Left, Right.  Profile 0 = traditional
letters (M, Q, Escape, pause, Q, A, O, P), profile 1 = left-numeric
(5, 4, Escape, pause, 4, 3, 1, 2), profile 2 = right-numeric
(0, 9, Escape, pause, 9, 8, 6, 7), profile 3 = emulator
(2, 3, F1, Enter, arrows). -/
def specLayoutCodes : Nat → List Nat
  | 0 => [0x3A, 0x15, 0x76, 0xFE, 0x15, 0x1C, 0x44, 0x4D]
  | 1 => [0x2E, 0x25, 0x76, 0xFE, 0x25, 0x26, 0x16, 0x1E]
  | 2 => [0x45, 0x46, 0x76, 0xFE, 0x46, 0x3E, 0x36, 0x3D]
  | 3 => [0x1E, 0x26, 0x05, 0x5A, 0x75, 0x72, 0x6B, 0x74]
  | _ => []

/-- A completely full queue (head one slot behind the tail). -/
def qFull : Queue := ⟨fun _ => 0, 63, 0⟩

/-- Fixture: configuration mode on the emulator layout with buttons A and
Select still marked pressed; previous mask all-released. -/
def devC1 : Device :=
  ⟨emptyQueue, [true, false, true, false, false, false, false, false], 3, false, true, 0xFF, 0⟩

/-- Fixture: configuration mode on layout 2 with Down (bit 5) already held
in the previous cycle's mask (219 = 0b11011011: Select and Down low). -/
def devHeldDown : Device := ⟨emptyQueue, List.replicate 8 false, 2, false, true, 219, 0⟩

/-- Fixture: configuration mode on layout 0, previous mask all-released, so
pressing A this cycle is a fresh press. -/
def devFreshA : Device := ⟨emptyQueue, List.replicate 8 false, 0, false, true, 0xFF, 0⟩

-- ============================================================
-- Basic ring-buffer lemmas
-- ============================================================

theorem residentCount_lt (q : Queue) : residentCount q < QUEUE_SIZE := by
  unfold residentCount QUEUE_SIZE
  omega

theorem freeSlots_eq (q : Queue) (h : QueueInv q) :
    freeSlots q = QUEUE_SIZE - 1 - residentCount q := by
  obtain ⟨h1, h2⟩ := h
  unfold freeSlots residentCount QUEUE_SIZE at *
  split <;> omega

/-- `pushRaw` preserves index bounds. -/
theorem pushRaw_inv (q : Queue) (b : Nat) (h : QueueInv q) :
    QueueInv (pushRaw q b) := by
  obtain ⟨h1, h2⟩ := h
  unfold pushRaw QueueInv QUEUE_SIZE at *
  constructor <;> simp <;> omega

/-- When the buffer is not full, `pushRaw` appends the byte to the resident
sequence and increments the count. -/
theorem pushRaw_append (q : Queue) (b : Nat) (h : QueueInv q)
    (hc : residentCount q ≤ QUEUE_SIZE - 2) :
    residentBytes (pushRaw q b) = residentBytes q ++ [b] ∧
    residentCount (pushRaw q b) = residentCount q + 1 := by
  obtain ⟨h1, h2⟩ := h
  have hcount : residentCount (pushRaw q b) = residentCount q + 1 := by
    unfold pushRaw residentCount QUEUE_SIZE at *
    simp only
    omega
  refine ⟨?_, hcount⟩
  unfold residentBytes
  rw [hcount, List.range_succ, List.map_append]
  congr 1
  · apply List.map_congr_left
    intro i hi
    rw [List.mem_range] at hi
    have hne : (q.qTail + i) % QUEUE_SIZE ≠ q.qHead := by
      unfold residentCount QUEUE_SIZE at *
      omega
    show (pushRaw q b).buf (((pushRaw q b).qTail + i) % QUEUE_SIZE) = _
    unfold pushRaw
    simp only [if_neg hne]
  · have heq : (q.qTail + residentCount q) % QUEUE_SIZE = q.qHead := by
      unfold residentCount QUEUE_SIZE at *
      omega
    show [(pushRaw q b).buf (((pushRaw q b).qTail + residentCount q) % QUEUE_SIZE)] = [b]
    unfold pushRaw
    simp [heq]

/-- When advancing the head would collide with the tail, `enqueue` silently
drops the byte and leaves the queue unchanged. -/
theorem enqueue_drop (q : Queue) (b : Nat) (h : (q.qHead + 1) % QUEUE_SIZE = q.qTail) :
    enqueue q b = q := by
  unfold enqueue
  simp [h]

/-- When the buffer is not full, `enqueue` behaves as `pushRaw`. -/
theorem enqueue_eq_pushRaw (q : Queue) (b : Nat) (h : QueueInv q)
    (hc : residentCount q ≤ QUEUE_SIZE - 2) :
    enqueue q b = pushRaw q b := by
  obtain ⟨h1, h2⟩ := h
  have hne : (q.qHead + 1) % QUEUE_SIZE ≠ q.qTail := by
    unfold residentCount QUEUE_SIZE at *
    omega
  unfold enqueue pushRaw
  simp [hne]

/-- When the buffer is not full, `enqueue` appends the byte. -/
theorem enqueue_append (q : Queue) (b : Nat) (h : QueueInv q)
    (hc : residentCount q ≤ QUEUE_SIZE - 2) :
    residentBytes (enqueue q b) = residentBytes q ++ [b] ∧
    residentCount (enqueue q b) = residentCount q + 1 ∧
    QueueInv (enqueue q b) := by
  rw [enqueue_eq_pushRaw q b h hc]
  obtain ⟨ha, hb⟩ := pushRaw_append q b h hc
  exact ⟨ha, hb, pushRaw_inv q b h⟩

/-- `enqueue` preserves index bounds unconditionally. -/
theorem enqueue_inv (q : Queue) (b : Nat) (h : QueueInv q) :
    QueueInv (enqueue q b) := by
  obtain ⟨h1, h2⟩ := h
  unfold enqueue QueueInv QUEUE_SIZE at *
  by_cases hne : (q.qHead + 1) % 64 = q.qTail <;> simp [hne] <;> omega

-- ============================================================
-- enqueuePause / processQueue lemmas
-- ============================================================

/-- Folding `pushRaw` over a list of bytes appends it wholesale when the
buffer has room for all of it. -/
theorem foldl_pushRaw_append (l : List Nat) (q : Queue) (h : QueueInv q)
    (hc : residentCount q + l.length ≤ QUEUE_SIZE - 1) :
    residentBytes (l.foldl pushRaw q) = residentBytes q ++ l ∧
    residentCount (l.foldl pushRaw q) = residentCount q + l.length ∧
    QueueInv (l.foldl pushRaw q) := by
  induction l generalizing q with
  | nil => exact ⟨by simp, by simp, h⟩
  | cons b r ih =>
    have hc1 : residentCount q ≤ QUEUE_SIZE - 2 := by
      simp only [List.length_cons] at hc
      unfold QUEUE_SIZE at *
      omega
    obtain ⟨ha, hb⟩ := pushRaw_append q b h hc1
    have hinv := pushRaw_inv q b h
    have hc2 : residentCount (pushRaw q b) + r.length ≤ QUEUE_SIZE - 1 := by
      rw [hb]; simp only [List.length_cons] at hc; omega
    obtain ⟨ih1, ih2, ih3⟩ := ih (pushRaw q b) hinv hc2
    refine ⟨?_, ?_, ih3⟩
    · simp only [List.foldl_cons, ih1, ha, List.append_assoc, List.singleton_append]
    · simp only [List.foldl_cons, ih2, hb, List.length_cons]; omega

/-- `enqueuePause` preserves index bounds. -/
theorem enqueuePause_inv (q : Queue) (h : QueueInv q) :
    QueueInv (enqueuePause q) := by
  unfold enqueuePause
  split
  · rename_i hfree
    have hc : residentCount q + PAUSE_SEQ.length ≤ QUEUE_SIZE - 1 := by
      have := freeSlots_eq q h
      have := residentCount_lt q
      unfold PAUSE_SEQ QUEUE_SIZE at *
      simp only [List.length_cons, List.length_nil]
      omega
    exact (foldl_pushRaw_append PAUSE_SEQ q h hc).2.2
  · exact h

/-- With at least 8 free slots, `enqueuePause` appends the whole 8-byte
sequence. -/
theorem enqueuePause_append (q : Queue) (h : QueueInv q) (hfree : 8 ≤ freeSlots q) :
    residentBytes (enqueuePause q) = residentBytes q ++ PAUSE_SEQ ∧
    residentCount (enqueuePause q) = residentCount q + 8 ∧
    QueueInv (enqueuePause q) := by
  have hc : residentCount q + PAUSE_SEQ.length ≤ QUEUE_SIZE - 1 := by
    have := freeSlots_eq q h
    unfold PAUSE_SEQ QUEUE_SIZE at *
    simp only [List.length_cons, List.length_nil]
    omega
  have hq : enqueuePause q = PAUSE_SEQ.foldl pushRaw q := by
    unfold enqueuePause
    simp [hfree]
  rw [hq]
  obtain ⟨h1, h2, h3⟩ := foldl_pushRaw_append PAUSE_SEQ q h hc
  exact ⟨h1, by simpa using h2, h3⟩

/-- With fewer than 8 free slots, `enqueuePause` writes nothing at all. -/
theorem enqueuePause_drop (q : Queue) (hfree : freeSlots q < 8) :
    enqueuePause q = q := by
  unfold enqueuePause
  simp [Nat.not_le.mpr hfree]

/-- `processQueue` preserves index bounds. -/
theorem processQueue_inv (q : Queue) (now lastSendTime : Nat) (h : QueueInv q) :
    QueueInv (processQueue q now lastSendTime).1 := by
  obtain ⟨h1, h2⟩ := h
  unfold processQueue QueueInv QUEUE_SIZE at *
  split
  · exact ⟨h1, h2⟩
  · split
    · exact ⟨h1, h2⟩
    · exact ⟨h1, by simp; omega⟩

-- ============================================================
-- sendMake / sendBreak byte-sequence lemmas
-- ============================================================

/-- Whenever the queue has room for the encoded bytes, `sendMake` appends
exactly `makeBytes code ext`. -/
theorem sendMake_append (q : Queue) (code : Nat) (ext : Bool) (h : QueueInv q)
    (hc : residentCount q + (makeBytes code ext).length ≤ QUEUE_SIZE - 1) :
    residentBytes (sendMake q code ext) = residentBytes q ++ makeBytes code ext ∧
    residentCount (sendMake q code ext) = residentCount q + (makeBytes code ext).length ∧
    QueueInv (sendMake q code ext) := by
  by_cases h0 : code = NO_KEY
  · have e1 : sendMake q code ext = q := by unfold sendMake; rw [if_pos h0]
    have e2 : makeBytes code ext = [] := by unfold makeBytes; rw [if_pos h0]
    rw [e1, e2]
    exact ⟨by simp, by simp, h⟩
  · by_cases hp : code = PAUSE_CODE
    · have e1 : sendMake q code ext = enqueuePause q := by
        unfold sendMake; rw [if_neg h0, if_pos hp]
      have e2 : makeBytes code ext = PAUSE_SEQ := by
        unfold makeBytes; rw [if_neg h0, if_pos hp]
      rw [e2] at hc
      have hlen : PAUSE_SEQ.length = 8 := rfl
      have hfree : 8 ≤ freeSlots q := by
        rw [freeSlots_eq q h]
        rw [hlen] at hc
        unfold QUEUE_SIZE at *
        omega
      obtain ⟨h1, h2, h3⟩ := enqueuePause_append q h hfree
      rw [e1, e2]
      exact ⟨h1, by rw [h2, hlen], h3⟩
    · have e1 : sendMake q code ext = enqueue (if ext then enqueue q 0xE0 else q) code := by
        unfold sendMake; rw [if_neg h0, if_neg hp]
      have e2 : makeBytes code ext = (if ext then [0xE0] else []) ++ [code] := by
        unfold makeBytes; rw [if_neg h0, if_neg hp]
      rw [e1, e2]
      rw [e2] at hc
      cases ext with
      | false =>
        simp only [Bool.false_eq_true, ite_false, List.nil_append,
          List.length_cons, List.length_nil] at *
        have hc1 : residentCount q ≤ QUEUE_SIZE - 2 := by
          unfold QUEUE_SIZE at *; omega
        obtain ⟨h1, h2, h3⟩ := enqueue_append q code h hc1
        exact ⟨h1, by omega, h3⟩
      | true =>
        simp only [ite_true, List.length_append, List.length_cons,
          List.length_nil] at *
        have hc1 : residentCount q ≤ QUEUE_SIZE - 2 := by
          unfold QUEUE_SIZE at *; omega
        obtain ⟨h1, h2, h3⟩ := enqueue_append q 0xE0 h hc1
        have hc2 : residentCount (enqueue q 0xE0) ≤ QUEUE_SIZE - 2 := by
          rw [h2]; unfold QUEUE_SIZE at *; omega
        obtain ⟨h4, h5, h6⟩ := enqueue_append (enqueue q 0xE0) code h3 hc2
        refine ⟨?_, by omega, h6⟩
        rw [h4, h1]; simp

/-- Whenever the queue has room for the encoded bytes, `sendBreak` appends
exactly `breakBytes code ext`. -/
theorem sendBreak_append (q : Queue) (code : Nat) (ext : Bool) (h : QueueInv q)
    (hc : residentCount q + (breakBytes code ext).length ≤ QUEUE_SIZE - 1) :
    residentBytes (sendBreak q code ext) = residentBytes q ++ breakBytes code ext ∧
    residentCount (sendBreak q code ext) = residentCount q + (breakBytes code ext).length ∧
    QueueInv (sendBreak q code ext) := by
  by_cases h0 : code = NO_KEY
  · have e1 : sendBreak q code ext = q := by unfold sendBreak; rw [if_pos h0]
    have e2 : breakBytes code ext = [] := by unfold breakBytes; rw [if_pos h0]
    rw [e1, e2]
    exact ⟨by simp, by simp, h⟩
  · by_cases hp : code = PAUSE_CODE
    · have e1 : sendBreak q code ext = q := by
        unfold sendBreak; rw [if_neg h0, if_pos hp]
      have e2 : breakBytes code ext = [] := by
        unfold breakBytes; rw [if_neg h0, if_pos hp]
      rw [e1, e2]
      exact ⟨by simp, by simp, h⟩
    · have e1 : sendBreak q code ext =
          enqueue (enqueue (if ext then enqueue q 0xE0 else q) 0xF0) code := by
        unfold sendBreak; rw [if_neg h0, if_neg hp]
      have e2 : breakBytes code ext = (if ext then [0xE0] else []) ++ [0xF0, code] := by
        unfold breakBytes; rw [if_neg h0, if_neg hp]
      rw [e1, e2]
      rw [e2] at hc
      have hstep : ∀ q0 : Queue, QueueInv q0 →
          residentCount q0 + 2 ≤ QUEUE_SIZE - 1 →
          residentBytes (enqueue (enqueue q0 0xF0) code) =
            residentBytes q0 ++ [0xF0, code] ∧
          residentCount (enqueue (enqueue q0 0xF0) code) = residentCount q0 + 2 ∧
          QueueInv (enqueue (enqueue q0 0xF0) code) := by
        intro q0 h0inv h0c
        have hc1 : residentCount q0 ≤ QUEUE_SIZE - 2 := by
          unfold QUEUE_SIZE at *; omega
        obtain ⟨h1, h2, h3⟩ := enqueue_append q0 0xF0 h0inv hc1
        have hc2 : residentCount (enqueue q0 0xF0) ≤ QUEUE_SIZE - 2 := by
          rw [h2]; unfold QUEUE_SIZE at *; omega
        obtain ⟨h4, h5, h6⟩ := enqueue_append (enqueue q0 0xF0) code h3 hc2
        refine ⟨?_, by omega, h6⟩
        rw [h4, h1]; simp
      cases ext with
      | false =>
        simp only [Bool.false_eq_true, ite_false, List.nil_append,
          List.length_cons, List.length_nil] at *
        obtain ⟨h1, h2, h3⟩ := hstep q h (by omega)
        exact ⟨h1, by omega, h3⟩
      | true =>
        simp only [ite_true, List.length_append, List.length_cons,
          List.length_nil] at *
        have hc1 : residentCount q ≤ QUEUE_SIZE - 2 := by
          unfold QUEUE_SIZE at *; omega
        obtain ⟨h1, h2, h3⟩ := enqueue_append q 0xE0 h hc1
        obtain ⟨h4, h5, h6⟩ := hstep (enqueue q 0xE0) h3 (by omega)
        refine ⟨?_, by omega, h6⟩
        rw [h4, h1]; simp

-- ============================================================
-- List helper lemmas (getD / set)
-- ============================================================

theorem getD_set_ne {α : Type} (l : List α) (a d : α) (i j : Nat) (h : i ≠ j) :
    (l.set i a).getD j d = l.getD j d := by
  induction l generalizing i j with
  | nil => simp
  | cons x xs ih =>
    cases i with
    | zero =>
      cases j with
      | zero => exact absurd rfl h
      | succ j => simp
    | succ i =>
      cases j with
      | zero => simp
      | succ j =>
        simp only [List.set_cons_succ, List.getD_cons_succ]
        exact ih i j (by omega)

theorem getD_set_self {α : Type} (l : List α) (a d : α) (i : Nat) (h : i < l.length) :
    (l.set i a).getD i d = a := by
  induction l generalizing i with
  | nil => simp at h
  | cons x xs ih =>
    cases i with
    | zero => simp
    | succ i =>
      simp only [List.set_cons_succ, List.getD_cons_succ]
      exact ih i (by simpa using h)

-- ============================================================
-- releaseAll lemmas
-- ============================================================

/-- `releaseBytesOn` only looks at the state flags of the listed indices. -/
theorem releaseBytesOn_congr (keys : List Nat) (ext : List Bool)
    (bs1 bs2 : List Bool) (l : List Nat)
    (h : ∀ i ∈ l, bs1.getD i false = bs2.getD i false) :
    releaseBytesOn keys ext bs1 l = releaseBytesOn keys ext bs2 l := by
  induction l with
  | nil => rfl
  | cons i r ih =>
    unfold releaseBytesOn
    rw [h i (by simp), ih (fun j hj => h j (by simp [hj]))]

/-- Full characterisation of the `releaseAll` loop over an arbitrary
duplicate-free index list: the emitted bytes are `releaseBytesOn`, the
listed flags end up false, the unlisted flags are untouched. -/
theorem releaseAll_fold (keys : List Nat) (ext : List Bool) (l : List Nat)
    (hnd : l.Nodup) :
    ∀ (q : Queue) (bs : List Bool), (∀ i ∈ l, i < bs.length) → QueueInv q →
    residentCount q + (releaseBytesOn keys ext bs l).length ≤ QUEUE_SIZE - 1 →
    residentBytes (l.foldl (releaseStep keys ext) (q, bs)).1 =
      residentBytes q ++ releaseBytesOn keys ext bs l ∧
    residentCount (l.foldl (releaseStep keys ext) (q, bs)).1 =
      residentCount q + (releaseBytesOn keys ext bs l).length ∧
    QueueInv (l.foldl (releaseStep keys ext) (q, bs)).1 ∧
    (l.foldl (releaseStep keys ext) (q, bs)).2.length = bs.length ∧
    (∀ j, j ∉ l → (l.foldl (releaseStep keys ext) (q, bs)).2.getD j false = bs.getD j false) ∧
    (∀ j ∈ l, (l.foldl (releaseStep keys ext) (q, bs)).2.getD j false = false) := by
  induction l with
  | nil =>
    intro q bs _ hq _
    exact ⟨by simp [releaseBytesOn], by simp [releaseBytesOn], hq, rfl,
      fun j _ => rfl, fun j hj => absurd hj (by simp)⟩
  | cons i r ih =>
    intro q bs hlen hq hc
    obtain ⟨hir, hrnd⟩ := List.nodup_cons.mp hnd
    have hil : i < bs.length := hlen i (by simp)
    by_cases hbi : bs.getD i false = true
    · have hstep : (i :: r).foldl (releaseStep keys ext) (q, bs) =
          r.foldl (releaseStep keys ext)
            (sendBreak q (keys.getD i 0) (ext.getD i false), bs.set i false) := by
        simp only [List.foldl_cons]
        unfold releaseStep
        rw [hbi]
        simp
      have hbytes : releaseBytesOn keys ext bs (i :: r) =
          breakBytes (keys.getD i 0) (ext.getD i false) ++ releaseBytesOn keys ext bs r := by
        simp only [releaseBytesOn]
        rw [hbi]
        simp
      have hcong : releaseBytesOn keys ext bs r =
          releaseBytesOn keys ext (bs.set i false) r := by
        apply releaseBytesOn_congr
        intro j hj
        exact (getD_set_ne bs false false i j (fun he => hir (he ▸ hj))).symm
      rw [hbytes] at hc
      simp only [List.length_append] at hc
      obtain ⟨hb1, hb2, hb3⟩ :=
        sendBreak_append q (keys.getD i 0) (ext.getD i false) hq (by omega)
      have hlen2 : ∀ j ∈ r, j < (bs.set i false).length := by
        intro j hj
        rw [List.length_set]
        exact hlen j (by simp [hj])
      have hc2 : residentCount (sendBreak q (keys.getD i 0) (ext.getD i false)) +
          (releaseBytesOn keys ext (bs.set i false) r).length ≤ QUEUE_SIZE - 1 := by
        rw [hb2, ← hcong]
        omega
      obtain ⟨ih1, ih2, ih3, ih4, ih5, ih6⟩ :=
        ih hrnd (sendBreak q (keys.getD i 0) (ext.getD i false)) (bs.set i false) hlen2 hb3 hc2
      rw [hstep]
      refine ⟨?_, ?_, ih3, ?_, ?_, ?_⟩
      · rw [ih1, hb1, hbytes, ← hcong]
        simp [List.append_assoc]
      · rw [ih2, hb2, hbytes, ← hcong]
        simp only [List.length_append]
        omega
      · rw [ih4, List.length_set]
      · intro j hj
        have hji : j ∉ r := fun hmem => hj (by simp [hmem])
        have hjne : i ≠ j := fun he => hj (by simp [he])
        rw [ih5 j hji, getD_set_ne bs false false i j hjne]
      · intro j hj
        rcases List.mem_cons.mp hj with he | hmem
        · subst he
          rw [ih5 j hir, getD_set_self bs false false j hil]
        · exact ih6 j hmem
    · have hbi2 : bs.getD i false = false := by
        cases hx : bs.getD i false
        · rfl
        · exact absurd hx hbi
      have hstep : (i :: r).foldl (releaseStep keys ext) (q, bs) =
          r.foldl (releaseStep keys ext) (q, bs) := by
        simp only [List.foldl_cons]
        unfold releaseStep
        rw [hbi2]
        simp
      have hbytes : releaseBytesOn keys ext bs (i :: r) = releaseBytesOn keys ext bs r := by
        simp only [releaseBytesOn]
        rw [hbi2]
        simp
      rw [hbytes] at hc
      obtain ⟨ih1, ih2, ih3, ih4, ih5, ih6⟩ :=
        ih hrnd q bs (fun j hj => hlen j (by simp [hj])) hq hc
      rw [hstep, hbytes]
      refine ⟨ih1, ih2, ih3, ih4, ?_, ?_⟩
      · intro j hj
        exact ih5 j (fun hmem => hj (by simp [hmem]))
      · intro j hj
        rcases List.mem_cons.mp hj with he | hmem
        · subst he
          by_cases hjr : j ∈ r
          · exact ih6 j hjr
          · rw [ih5 j hjr]; exact hbi2
        · exact ih6 j hmem

/-- `releaseAll` appends exactly the break encodings of the pressed buttons,
in button order, whenever the queue has room for them. -/
theorem releaseAll_spec (keys : List Nat) (ext : List Bool) (q : Queue)
    (bs : List Bool) (hbs : bs.length = BUTTON_COUNT) (hq : QueueInv q)
    (hc : residentCount q + (releaseBytes keys ext bs).length ≤ QUEUE_SIZE - 1) :
    residentBytes (releaseAll keys ext q bs).1 =
      residentBytes q ++ releaseBytes keys ext bs ∧
    QueueInv (releaseAll keys ext q bs).1 ∧
    residentCount (releaseAll keys ext q bs).1 =
      residentCount q + (releaseBytes keys ext bs).length := by
  have hlen : ∀ i ∈ List.range BUTTON_COUNT, i < bs.length := by
    intro i hi
    rw [hbs]
    exact List.mem_range.mp hi
  obtain ⟨h1, h2, h3, _, _, _⟩ :=
    releaseAll_fold keys ext (List.range BUTTON_COUNT) (List.nodup_range _) q bs hlen hq hc
  exact ⟨h1, h3, h2⟩

-- ============================================================
-- normalOp lemmas
-- ============================================================

theorem buttonStep_length (state : Nat) (swapAB : Bool) (keys : List Nat)
    (ext : List Bool) (acc : Queue × List Bool) (i : Nat) :
    (buttonStep state swapAB keys ext acc i).2.length = acc.2.length := by
  unfold buttonStep
  split
  · exact List.length_set acc.2 i true
  · split
    · exact List.length_set acc.2 i false
    · rfl

theorem buttonStep_getD_ne (state : Nat) (swapAB : Bool) (keys : List Nat)
    (ext : List Bool) (acc : Queue × List Bool) (i j : Nat) (h : i ≠ j) :
    (buttonStep state swapAB keys ext acc i).2.getD j false = acc.2.getD j false := by
  unfold buttonStep
  split
  · exact getD_set_ne acc.2 true false i j h
  · split
    · exact getD_set_ne acc.2 false false i j h
    · rfl

/-- When a button's stored flag equals its freshly computed value, the step
does nothing. -/
theorem buttonStep_noop (state : Nat) (swapAB : Bool) (keys : List Nat)
    (ext : List Bool) (acc : Queue × List Bool) (i : Nat)
    (h : acc.2.getD i false = pressedFn state swapAB i) :
    buttonStep state swapAB keys ext acc i = acc := by
  unfold buttonStep
  rw [h, Bool.and_not_self, Bool.not_and_self]
  simp

theorem buttonStep_getD_self (state : Nat) (swapAB : Bool) (keys : List Nat)
    (ext : List Bool) (acc : Queue × List Bool) (i : Nat) (h : i < acc.2.length) :
    (buttonStep state swapAB keys ext acc i).2.getD i false = pressedFn state swapAB i := by
  cases hp : pressedFn state swapAB i <;> cases hb : acc.2.getD i false
  · rw [buttonStep_noop state swapAB keys ext acc i (by rw [hb, hp]), hb]
  · have hfire : buttonStep state swapAB keys ext acc i =
        (sendBreak acc.1 (keys.getD i 0) (ext.getD i false), acc.2.set i false) := by
      unfold buttonStep
      rw [hp, hb]
      simp
    rw [hfire]
    exact getD_set_self acc.2 false false i h
  · have hfire : buttonStep state swapAB keys ext acc i =
        (sendMake acc.1 (keys.getD i 0) (ext.getD i false), acc.2.set i true) := by
      unfold buttonStep
      rw [hp, hb]
      simp
    rw [hfire]
    exact getD_set_self acc.2 true false i h
  · rw [buttonStep_noop state swapAB keys ext acc i (by rw [hb, hp]), hb]

theorem normalOp_fold_length (state : Nat) (swapAB : Bool) (keys : List Nat)
    (ext : List Bool) (l : List Nat) :
    ∀ acc : Queue × List Bool,
      (l.foldl (buttonStep state swapAB keys ext) acc).2.length = acc.2.length := by
  induction l with
  | nil => intro acc; rfl
  | cons i r ih =>
    intro acc
    simp only [List.foldl_cons]
    rw [ih, buttonStep_length]

theorem normalOp_fold_getD_ne (state : Nat) (swapAB : Bool) (keys : List Nat)
    (ext : List Bool) (l : List Nat) :
    ∀ (acc : Queue × List Bool) (j : Nat), j ∉ l →
      (l.foldl (buttonStep state swapAB keys ext) acc).2.getD j false =
        acc.2.getD j false := by
  induction l with
  | nil => intro acc j _; rfl
  | cons i r ih =>
    intro acc j hj
    simp only [List.foldl_cons]
    rw [ih _ j (fun hm => hj (by simp [hm])),
      buttonStep_getD_ne _ _ _ _ _ _ _ (fun he => hj (by simp [he]))]

/-- After one pass of the edge-detection loop, every processed button's flag
equals its freshly computed `pressed` value. -/
theorem normalOp_fold_post (state : Nat) (swapAB : Bool) (keys : List Nat)
    (ext : List Bool) (l : List Nat) (hnd : l.Nodup) :
    ∀ (acc : Queue × List Bool), (∀ i ∈ l, i < acc.2.length) →
      ∀ j ∈ l, (l.foldl (buttonStep state swapAB keys ext) acc).2.getD j false =
        pressedFn state swapAB j := by
  induction l with
  | nil => intro acc _ j hj; exact absurd hj (by simp)
  | cons i r ih =>
    intro acc hlen j hj
    obtain ⟨hir, hrnd⟩ := List.nodup_cons.mp hnd
    simp only [List.foldl_cons]
    rcases List.mem_cons.mp hj with he | hmem
    · subst he
      rw [normalOp_fold_getD_ne state swapAB keys ext r _ j hir]
      exact buttonStep_getD_self state swapAB keys ext acc j (hlen j (by simp))
    · exact ih hrnd _
        (fun k hk => by rw [buttonStep_length]; exact hlen k (by simp [hk])) j hmem

/-- If every processed button's flag already equals its `pressed` value, the
whole pass is the identity: no queue writes, no state changes. -/
theorem normalOp_fold_noop (state : Nat) (swapAB : Bool) (keys : List Nat)
    (ext : List Bool) (l : List Nat) :
    ∀ (acc : Queue × List Bool),
      (∀ j ∈ l, acc.2.getD j false = pressedFn state swapAB j) →
      l.foldl (buttonStep state swapAB keys ext) acc = acc := by
  induction l with
  | nil => intro acc _; rfl
  | cons i r ih =>
    intro acc h
    simp only [List.foldl_cons]
    rw [buttonStep_noop state swapAB keys ext acc i (h i (by simp))]
    exact ih acc (fun j hj => h j (by simp [hj]))

-- ============================================================
-- loopStep reduction lemmas (configuration-mode cycles)
-- ============================================================

/-- In configuration mode, a fresh press of A forces swapAB off, persists
the settings, and falls through to normal operation. -/
theorem loopStep_swapA (d : Device) (state : Nat)
    (hmode : d.selectMode = true) (hsel : state &&& (1 <<< 2) = 0)
    (hA : state &&& (1 <<< 0) = 0) (hAfresh : d.lastNesState &&& (1 <<< 0) ≠ 0) :
    loopStep d state =
      finishCycle { d with swapAB := false, eeprom := saveConfig d.layout false }
        state (layouts d.layout) (extFlags d.layout) := by
  have hsel4 : state &&& 4 = 0 := by simpa using hsel
  have h1mod : state % 2 = 0 := by
    have h1 : state &&& 1 = 0 := by simpa using hA
    simpa [Nat.and_one_is_mod] using h1
  have hlast : d.lastNesState % 2 = 1 := by
    have h1 : d.lastNesState &&& 1 ≠ 0 := by simpa using hAfresh
    have h2 : d.lastNesState % 2 ≠ 0 := by simpa [Nat.and_one_is_mod] using h1
    omega
  unfold loopStep
  simp [hsel4, hmode, h1mod, hlast]

/-- In configuration mode, with no fresh A press, a fresh press of B forces
swapAB on, persists the settings, and falls through to normal operation. -/
theorem loopStep_swapB (d : Device) (state : Nat)
    (hmode : d.selectMode = true) (hsel : state &&& (1 <<< 2) = 0)
    (hA : state &&& (1 <<< 0) ≠ 0 ∨ d.lastNesState &&& (1 <<< 0) = 0)
    (hB : state &&& (1 <<< 1) = 0) (hBfresh : d.lastNesState &&& (1 <<< 1) ≠ 0) :
    loopStep d state =
      finishCycle { d with swapAB := true, eeprom := saveConfig d.layout true }
        state (layouts d.layout) (extFlags d.layout) := by
  have hsel4 : state &&& 4 = 0 := by simpa using hsel
  have hnA : ¬ (state % 2 = 0 ∧ d.lastNesState % 2 = 1) := by
    have hA1 : state &&& 1 ≠ 0 ∨ d.lastNesState &&& 1 = 0 := by simpa using hA
    have hA2 : state % 2 ≠ 0 ∨ d.lastNesState % 2 = 0 := by
      simpa [Nat.and_one_is_mod] using hA1
    omega
  have hB2 : state &&& 2 = 0 := by simpa using hB
  have hBlast : ¬ d.lastNesState &&& 2 = 0 := by simpa using hBfresh
  unfold loopStep
  simp [hsel4, hmode, hnA, hB2, hBlast]

/-- In configuration mode, with no fresh A/B press and a directional bit low,
the cycle releases all keys under the old tables, force-clears the button
state, switches the layout, persists the settings, records the mask, and
skips normal operation. -/
theorem loopStep_config_switch (d : Device) (state L : Nat)
    (hmode : d.selectMode = true) (hsel : state &&& (1 <<< 2) = 0)
    (hA : state &&& (1 <<< 0) ≠ 0 ∨ d.lastNesState &&& (1 <<< 0) = 0)
    (hB : state &&& (1 <<< 1) ≠ 0 ∨ d.lastNesState &&& (1 <<< 1) = 0)
    (hL : layoutSelect state = some L) :
    loopStep d state =
      { d with q := (releaseAll (layouts d.layout) (extFlags d.layout) d.q d.buttonState).1,
               buttonState := List.replicate BUTTON_COUNT false,
               layout := L,
               eeprom := saveConfig L d.swapAB,
               lastNesState := state } := by
  have hsel4 : state &&& 4 = 0 := by simpa using hsel
  have hnA : ¬ (state % 2 = 0 ∧ d.lastNesState % 2 = 1) := by
    have hA1 : state &&& 1 ≠ 0 ∨ d.lastNesState &&& 1 = 0 := by simpa using hA
    have hA2 : state % 2 ≠ 0 ∨ d.lastNesState % 2 = 0 := by
      simpa [Nat.and_one_is_mod] using hA1
    omega
  have hnB : ¬ (state &&& 2 = 0 ∧ ¬ d.lastNesState &&& 2 = 0) := by
    have hB1 : state &&& 2 ≠ 0 ∨ d.lastNesState &&& 2 = 0 := by simpa using hB
    rcases hB1 with h | h
    · exact fun hc => h hc.1
    · exact fun hc => hc.2 h
  unfold loopStep
  simp [hsel4, hmode, hnA, hnB, hL]

/-- In configuration mode, with no fresh A/B press and no directional bit
low, the cycle falls through to normal operation unchanged. -/
theorem loopStep_config_fallthrough (d : Device) (state : Nat)
    (hmode : d.selectMode = true) (hsel : state &&& (1 <<< 2) = 0)
    (hA : state &&& (1 <<< 0) ≠ 0 ∨ d.lastNesState &&& (1 <<< 0) = 0)
    (hB : state &&& (1 <<< 1) ≠ 0 ∨ d.lastNesState &&& (1 <<< 1) = 0)
    (hL : layoutSelect state = none) :
    loopStep d state = finishCycle d state (layouts d.layout) (extFlags d.layout) := by
  have hsel4 : state &&& 4 = 0 := by simpa using hsel
  have hnA : ¬ (state % 2 = 0 ∧ d.lastNesState % 2 = 1) := by
    have hA1 : state &&& 1 ≠ 0 ∨ d.lastNesState &&& 1 = 0 := by simpa using hA
    have hA2 : state % 2 ≠ 0 ∨ d.lastNesState % 2 = 0 := by
      simpa [Nat.and_one_is_mod] using hA1
    omega
  have hnB : ¬ (state &&& 2 = 0 ∧ ¬ d.lastNesState &&& 2 = 0) := by
    have hB1 : state &&& 2 ≠ 0 ∨ d.lastNesState &&& 2 = 0 := by simpa using hB
    rcases hB1 with h | h
    · exact fun hc => h hc.1
    · exact fun hc => hc.2 h
  unfold loopStep
  simp [hsel4, hmode, hnA, hnB, hL]
/-- Claim C1: for every non-empty ButtonState, a configuration-triggered
layout switch leaves an all-false ButtonState and, before the switch takes
effect, appends to the queue exactly one release encoding for every logical
button whose state flag was true, using the outgoing (old) profile's key
codes and extended flags; the remainder of that cycle's normal-operation
edge detection is skipped (the final state is exactly the release-and-reset
state: no make/break events from step 5, and the new layout, persisted
settings and recorded mask are as the switch dictates). -/
theorem C1_layout_switch_safety (d : Device) (state L : Nat)
    (hmode : d.selectMode = true)
    (hsel : state &&& (1 <<< 2) = 0)
    (hA : state &&& (1 <<< 0) ≠ 0 ∨ d.lastNesState &&& (1 <<< 0) = 0)
    (hB : state &&& (1 <<< 1) ≠ 0 ∨ d.lastNesState &&& (1 <<< 1) = 0)
    (hL : layoutSelect state = some L)
    (_hne : d.buttonState.any id = true)
    (hbs : d.buttonState.length = BUTTON_COUNT)
    (hq : QueueInv d.q)
    (hroom : residentCount d.q +
        (releaseBytes (layouts d.layout) (extFlags d.layout) d.buttonState).length ≤
      QUEUE_SIZE - 1) :
    (loopStep d state).buttonState = List.replicate BUTTON_COUNT false ∧
    residentBytes (loopStep d state).q =
      residentBytes d.q ++ releaseBytes (layouts d.layout) (extFlags d.layout) d.buttonState ∧
    (loopStep d state).layout = L ∧
    (loopStep d state).swapAB = d.swapAB ∧
    (loopStep d state).eeprom = saveConfig L d.swapAB ∧
    (loopStep d state).lastNesState = state := by
  rw [loopStep_config_switch d state L hmode hsel hA hB hL]
  obtain ⟨h1, _, _⟩ :=
    releaseAll_spec (layouts d.layout) (extFlags d.layout) d.q d.buttonState hbs hq hroom
  exact ⟨rfl, h1, rfl, rfl, rfl, rfl⟩

/-- Witness for C1: concrete switch from the emulator layout (buttons A and
Select pressed) to layout 0 on mask 219. -/
theorem C1_witness :
    (loopStep devC1 219).buttonState = List.replicate BUTTON_COUNT false ∧
    residentBytes (loopStep devC1 219).q =
      residentBytes devC1.q ++
        releaseBytes (layouts devC1.layout) (extFlags devC1.layout) devC1.buttonState ∧
    (loopStep devC1 219).layout = 0 ∧
    (loopStep devC1 219).swapAB = devC1.swapAB ∧
    (loopStep devC1 219).eeprom = saveConfig 0 devC1.swapAB ∧
    (loopStep devC1 219).lastNesState = 219 :=
  C1_layout_switch_safety devC1 219 0 rfl (by decide) (Or.inl (by decide))
    (Or.inl (by decide)) (by decide) (by decide) (by decide) (by decide) (by decide)

/-- Counterexample for C2: Down (bit 5) was already held in the previous
cycle's mask (219), yet the cycle still triggers a layout switch from
layout 2 to layout 0 and persists it — the switch is not edge-triggered. -/
theorem C2_counterexample :
    devHeldDown.selectMode = true ∧
    devHeldDown.lastNesState &&& (1 <<< 5) = 0 ∧
    devHeldDown.layout = 2 ∧
    (loopStep devHeldDown 219).layout = 0 ∧
    (loopStep devHeldDown 219).eeprom = saveConfig 0 false := by decide

/-- Claim C2 (amended): in configuration mode, when neither A nor B is
freshly pressed, a layout switch is triggered by any directional button
pressed in this cycle's mask, regardless of the previous cycle's mask
(level-triggered): Down, Left, Right, Up map to profile 0, 1, 2, 3 with
priority Down > Left > Right > Up; with no directional pressed the layout
is unchanged. -/
theorem C2_amended_level_triggered (d : Device) (state : Nat)
    (hmode : d.selectMode = true) (hsel : state &&& (1 <<< 2) = 0)
    (hA : state &&& (1 <<< 0) ≠ 0 ∨ d.lastNesState &&& (1 <<< 0) = 0)
    (hB : state &&& (1 <<< 1) ≠ 0 ∨ d.lastNesState &&& (1 <<< 1) = 0) :
    (loopStep d state).layout =
      (if state &&& (1 <<< 5) = 0 then 0
       else if state &&& (1 <<< 6) = 0 then 1
       else if state &&& (1 <<< 7) = 0 then 2
       else if state &&& (1 <<< 4) = 0 then 3
       else d.layout) := by
  by_cases h5 : state &&& (1 <<< 5) = 0
  · rw [loopStep_config_switch d state 0 hmode hsel hA hB
      (by unfold layoutSelect; rw [if_pos h5]), if_pos h5]
  · by_cases h6 : state &&& (1 <<< 6) = 0
    · rw [loopStep_config_switch d state 1 hmode hsel hA hB
        (by unfold layoutSelect; rw [if_neg h5, if_pos h6]), if_neg h5, if_pos h6]
    · by_cases h7 : state &&& (1 <<< 7) = 0
      · rw [loopStep_config_switch d state 2 hmode hsel hA hB
          (by unfold layoutSelect; rw [if_neg h5, if_neg h6, if_pos h7]),
          if_neg h5, if_neg h6, if_pos h7]
      · by_cases h4 : state &&& (1 <<< 4) = 0
        · rw [loopStep_config_switch d state 3 hmode hsel hA hB
            (by unfold layoutSelect; rw [if_neg h5, if_neg h6, if_neg h7, if_pos h4]),
            if_neg h5, if_neg h6, if_neg h7, if_pos h4]
        · rw [loopStep_config_fallthrough d state hmode hsel hA hB
            (by unfold layoutSelect; rw [if_neg h5, if_neg h6, if_neg h7, if_neg h4]),
            if_neg h5, if_neg h6, if_neg h7, if_neg h4]
          rfl

/-- Witness for C2 (amended): the held-Down fixture still switches to
layout 0. -/
theorem C2_amended_witness :
    (loopStep devHeldDown 219).layout =
      (if 219 &&& (1 <<< 5) = 0 then 0
       else if 219 &&& (1 <<< 6) = 0 then 1
       else if 219 &&& (1 <<< 7) = 0 then 2
       else if 219 &&& (1 <<< 4) = 0 then 3
       else devHeldDown.layout) :=
  C2_amended_level_triggered devHeldDown 219 rfl (by decide)
    (Or.inl (by decide)) (Or.inl (by decide))

/-- Counterexample for C3: a configuration-mode cycle with a fresh A press
(mask 250 = Select+A low, previous mask all-released) does not return
before step 5: normal-operation edge detection runs in the same cycle,
enqueues the makes for A (0x3A under layout 0) and Select (0x76), and sets
their state flags. -/
theorem C3_counterexample :
    (250 : Nat) &&& (1 <<< 2) = 0 ∧
    (250 : Nat) &&& (1 <<< 0) = 0 ∧
    devFreshA.lastNesState &&& (1 <<< 0) ≠ 0 ∧
    devFreshA.selectMode = true ∧
    (loopStep devFreshA 250).swapAB = false ∧
    residentBytes (loopStep devFreshA 250).q = [0x3A, 0x76] ∧
    (loopStep devFreshA 250).buttonState ≠ List.replicate BUTTON_COUNT false := by decide

/-- Claim C3 (amended): in configuration mode, a fresh press of A forces
swapAB to false and a fresh press of B (with no fresh A press) forces
swapAB to true; either persists the settings and then falls through to the
normal-operation edge-detection step in the same cycle (`finishCycle`);
step 5 is skipped only by the layout-switch branch, not by the A/B swap
branch. -/
theorem C3_amended_swap_falls_through (d : Device) (state : Nat)
    (hmode : d.selectMode = true) (hsel : state &&& (1 <<< 2) = 0) :
    (state &&& (1 <<< 0) = 0 → d.lastNesState &&& (1 <<< 0) ≠ 0 →
      loopStep d state =
        finishCycle { d with swapAB := false, eeprom := saveConfig d.layout false }
          state (layouts d.layout) (extFlags d.layout)) ∧
    ((state &&& (1 <<< 0) ≠ 0 ∨ d.lastNesState &&& (1 <<< 0) = 0) →
      state &&& (1 <<< 1) = 0 → d.lastNesState &&& (1 <<< 1) ≠ 0 →
      loopStep d state =
        finishCycle { d with swapAB := true, eeprom := saveConfig d.layout true }
          state (layouts d.layout) (extFlags d.layout)) :=
  ⟨fun hA hAf => loopStep_swapA d state hmode hsel hA hAf,
   fun hA hBp hBf => loopStep_swapB d state hmode hsel hA hBp hBf⟩

/-- Witness for C3 (amended): the fresh-A fixture at mask 250. -/
theorem C3_amended_witness :
    loopStep devFreshA 250 =
      finishCycle
        { devFreshA with
          swapAB := false
          eeprom := saveConfig devFreshA.layout false }
        250 (layouts devFreshA.layout) (extFlags devFreshA.layout) :=
  (C3_amended_swap_falls_through devFreshA 250 rfl (by decide)).1 (by decide) (by decide)

/-- Claim C4: for the special pause key (code 0xFE), `sendBreak` enqueues
no bytes, and `sendMake` enqueues the fixed 8-byte sequence
0xE1 0x14 0x77 0xE1 0xF0 0x14 0xF0 0x77 atomically: with at least 8 free
slots the whole sequence is appended in order; with fewer than 8 free slots
no byte at all is written. -/
theorem C4_pause_encoding (q : Queue) (ext : Bool) (h : QueueInv q) :
    sendBreak q PAUSE_CODE ext = q ∧
    (8 ≤ freeSlots q →
      residentBytes (sendMake q PAUSE_CODE ext) =
        residentBytes q ++ [0xE1, 0x14, 0x77, 0xE1, 0xF0, 0x14, 0xF0, 0x77]) ∧
    (freeSlots q < 8 → sendMake q PAUSE_CODE ext = q) := by
  have e1 : sendMake q PAUSE_CODE ext = enqueuePause q := by
    unfold sendMake
    rw [if_neg (by decide), if_pos rfl]
  refine ⟨?_, ?_, ?_⟩
  · unfold sendBreak
    rw [if_neg (by decide), if_pos rfl]
  · intro hfree
    rw [e1]
    exact (enqueuePause_append q h hfree).1
  · intro hfree
    rw [e1]
    exact enqueuePause_drop q hfree

/-- Witness for C4: the empty queue receives the full sequence; a full
queue receives nothing. -/
theorem C4_witness :
    (residentBytes (sendMake emptyQueue PAUSE_CODE false) =
      residentBytes emptyQueue ++ [0xE1, 0x14, 0x77, 0xE1, 0xF0, 0x14, 0xF0, 0x77]) ∧
    sendBreak emptyQueue PAUSE_CODE false = emptyQueue ∧
    sendMake qFull PAUSE_CODE false = qFull :=
  ⟨(C4_pause_encoding emptyQueue false (by decide)).2.1 (by decide),
   (C4_pause_encoding emptyQueue false (by decide)).1,
   (C4_pause_encoding qFull false (by decide)).2.2 (by decide)⟩

/-- Claim C5: the output queue never blocks a producer and never holds
more than capacity−1 = 63 bytes: `enqueue` leaves the queue unchanged when
advancing the head would make it equal the tail, and `enqueue`,
`enqueuePause` and the drain step `processQueue` all preserve the invariant
that head and tail are in [0,64) and the resident byte count is at
most 63. -/
theorem C5_queue_nonblocking_bounded (q : Queue) (b now lastSendTime : Nat)
    (h : QueueInv q) :
    ((q.qHead + 1) % QUEUE_SIZE = q.qTail → enqueue q b = q) ∧
    residentCount q ≤ QUEUE_SIZE - 1 ∧
    QueueInv (enqueue q b) ∧ residentCount (enqueue q b) ≤ QUEUE_SIZE - 1 ∧
    QueueInv (enqueuePause q) ∧ residentCount (enqueuePause q) ≤ QUEUE_SIZE - 1 ∧
    QueueInv (processQueue q now lastSendTime).1 ∧
    residentCount (processQueue q now lastSendTime).1 ≤ QUEUE_SIZE - 1 := by
  have hle : ∀ q0 : Queue, residentCount q0 ≤ QUEUE_SIZE - 1 := fun q0 => by
    have := residentCount_lt q0
    unfold QUEUE_SIZE at *
    omega
  exact ⟨fun hd => enqueue_drop q b hd, hle q, enqueue_inv q b h, hle _,
    enqueuePause_inv q h, hle _, processQueue_inv q now lastSendTime h, hle _⟩

/-- Witness for C5: on the full queue, `enqueue` drops the byte and the
bounds still hold. -/
theorem C5_witness :
    enqueue qFull 5 = qFull ∧ QueueInv (enqueue qFull 5) ∧
    residentCount (enqueuePause qFull) ≤ QUEUE_SIZE - 1 :=
  ⟨(C5_queue_nonblocking_bounded qFull 5 0 0 (by decide)).1 (by decide),
   (C5_queue_nonblocking_bounded qFull 5 0 0 (by decide)).2.2.1,
   (C5_queue_nonblocking_bounded qFull 5 0 0 (by decide)).2.2.2.2.2.1⟩

set_option maxRecDepth 4096 in
/-- Claim C6: `saveConfig` followed by `loadConfig` restores the identical
(profile index, swapAB) pair for every profile index 0–3 and both Boolean
values; moreover `loadConfig` decodes any stored byte by masking the
profile index to exactly bits [1:0] and taking swapAB from bit [2],
ignoring the reserved bits [7:3]. -/
theorem C6_settings_roundtrip_mask :
    (∀ L : Fin LAYOUT_COUNT, ∀ s : Bool,
        (loadConfig (saveConfig L.val s)).1 = ⟨L.val, s⟩) ∧
    (∀ b : Fin 256,
        (loadConfig b.val).1.layout = b.val &&& 0x03 ∧
        ((loadConfig b.val).1.swapAB = true ↔ (b.val >>> 2) &&& 1 = 1) ∧
        (loadConfig b.val).1 = (loadConfig (b.val &&& 0x07)).1) := by
  decide

/-- Claim C7: the four layout profiles match the specification's table
exactly; the extended flag is true only for profile 3's four directional
buttons; and with profile 2 and swapAB = false, a physical A press enqueues
the single byte 0x45 and its subsequent release enqueues exactly 0xF0 then
0x45. -/
theorem C7_layout_tables :
    (∀ L : Fin LAYOUT_COUNT, layouts L.val = specLayoutCodes L.val) ∧
    (∀ L : Fin LAYOUT_COUNT, ∀ i : Fin BUTTON_COUNT,
        (extFlags L.val).getD i.val false = (decide (L.val = 3) && decide (4 ≤ i.val))) ∧
    residentBytes (normalOp emptyQueue (List.replicate BUTTON_COUNT false) 0xFE false
        (layouts 2) (extFlags 2)).1 = [0x45] ∧
    residentBytes (normalOp
        (normalOp emptyQueue (List.replicate BUTTON_COUNT false) 0xFE false
          (layouts 2) (extFlags 2)).1
        (normalOp emptyQueue (List.replicate BUTTON_COUNT false) 0xFE false
          (layouts 2) (extFlags 2)).2
        0xFF false (layouts 2) (extFlags 2)).1 = [0x45, 0xF0, 0x45] := by
  decide

/-- Claim C8: for every profile, a cycle in which only physical A is
pressed while swapAB = true produces exactly the same queue and button
state as a cycle in which only physical B is pressed while swapAB = false,
starting from the same all-released ButtonState (masks 0xFE and 0xFD are
the active-low A-only and B-only masks). -/
theorem C8_swapAB_equivalence (L : Fin LAYOUT_COUNT) (q : Queue) :
    normalOp q (List.replicate BUTTON_COUNT false) 0xFE true
      (layouts L.val) (extFlags L.val) =
    normalOp q (List.replicate BUTTON_COUNT false) 0xFD false
      (layouts L.val) (extFlags L.val) := by
  fin_cases L <;> rfl

/-- Claim C9: the normal-operation edge-detection step is idempotent: for
every input mask and every 8-entry ButtonState, running the step once and
then a second time with the same unchanged mask leaves the queue and the
state untouched on the second run (after the first run the stored flags
agree with the mask, so no edge is detected). -/
theorem C9_edge_detection_idempotent (q : Queue) (bs : List Bool) (state : Nat)
    (swapAB : Bool) (keys : List Nat) (ext : List Bool)
    (hbs : bs.length = BUTTON_COUNT) :
    normalOp (normalOp q bs state swapAB keys ext).1
      (normalOp q bs state swapAB keys ext).2 state swapAB keys ext =
    normalOp q bs state swapAB keys ext := by
  apply normalOp_fold_noop
  intro j hj
  have hlen : ∀ i ∈ List.range BUTTON_COUNT, i < bs.length := fun i hi => by
    rw [hbs]
    exact List.mem_range.mp hi
  exact normalOp_fold_post state swapAB keys ext (List.range BUTTON_COUNT)
    (List.nodup_range _) (q, bs) hlen j hj

/-- Witness for C9: second pass on the A-pressed mask over layout 2
changes nothing. -/
theorem C9_witness :
    normalOp (normalOp emptyQueue (List.replicate 8 false) 0xFE false
        (layouts 2) (extFlags 2)).1
      (normalOp emptyQueue (List.replicate 8 false) 0xFE false
        (layouts 2) (extFlags 2)).2 0xFE false (layouts 2) (extFlags 2) =
    normalOp emptyQueue (List.replicate 8 false) 0xFE false (layouts 2) (extFlags 2) :=
  C9_edge_detection_idempotent emptyQueue (List.replicate 8 false) 0xFE false
    (layouts 2) (extFlags 2) (by decide)

/-- Claim C10: `loadConfig` never writes to the persistent store: for
every stored byte the decoded layout index (byte &&& 0x03) is below
LAYOUT_COUNT = 4, so the corrupt-settings recovery branch is unreachable
and the accepting branch is always taken. -/
theorem C10_loadConfig_total_no_write (b : Nat) :
    (loadConfig b).2 = none ∧
    (loadConfig b).1.layout = b &&& 0x03 ∧
    b &&& 0x03 < LAYOUT_COUNT := by
  have h : b &&& 0x03 < LAYOUT_COUNT := by
    have := Nat.and_le_right (n := b) (m := 0x03)
    unfold LAYOUT_COUNT
    omega
  refine ⟨?_, ?_, h⟩ <;> simp [loadConfig, h]


end GamepadPS2
